import Mathlib

/-!
Shallow embedding of `src/monitor.py` (hanscnc report monitor) and proofs of
the specification claims about it.

The Python program is a single-file monitor: it fetches one HTML listing page,
extracts report items `{title, date, href}` with textual heuristics
(`extract_items`), diffs them against a persisted seen-set, notifies a Feishu
webhook (`notify_feishu`, signed via `feishu_sign`), and persists state
(`main`).

Modelling conventions:
- The parsed HTML document (the BeautifulSoup tree) is modelled by the mutual
  inductive `Node`/`NodeList`; extraction is a function of the parsed tree,
  the HTML parser itself being an external library.
- `urllib.parse.urljoin` is an external library function and is modelled as an
  explicit function parameter `uj : String → String → String` of the
  extraction engine; all theorems hold for every such resolution function,
  and concrete instances use a concrete function.
- Python strings are Lean `String`s; byte strings are `List Nat` with each
  byte `< 256`; 32-bit machine words are `Nat` taken modulo `2^32`.
- The stdlib `hashlib.sha256`, `hmac` and `base64.b64encode` calls are
  modelled by executable implementations of SHA-256 (FIPS 180-4), HMAC
  (RFC 2104, block size 64) and standard base64.
- Effects of `main` (calls to `save_state` and `notify_feishu`, printed
  lines) are reified in the `RunEffects` record; the persisted seen-set is
  compared as a `Finset String` because Python persists `list(set(...))`,
  whose element order is unspecified.
-/

/-! ## Text utilities: `norm_text` (monitor.py lines 24–25)

`norm_text(s)` is `re.sub(r"\s+", " ", (s or "").strip())`.
Whitespace is modelled as space, tab, newline and carriage return. -/

/-- Whitespace test used by the model of `\s` and `str.strip`. -/
def isWsChar (c : Char) : Bool :=
  c = ' ' || c = '\t' || c = '\n' || c = '\r'

/-- Model of `re.sub(r"\s+", " ", ·)` on a character list: every maximal run
of whitespace becomes one `' '`.  The boolean records whether the previous
character belonged to a whitespace run already replaced. -/
def subWsAux (afterWs : Bool) : List Char → List Char
  | [] => []
  | c :: t =>
    if isWsChar c then
      if afterWs then subWsAux true t else ' ' :: subWsAux true t
    else c :: subWsAux false t

/-- Model of removing trailing whitespace (the right half of `str.strip`). -/
def stripEnd (l : List Char) : List Char :=
  (l.reverse.dropWhile isWsChar).reverse

/-- Model of `str.strip()`: drop leading and trailing whitespace. -/
def pyStrip (l : List Char) : List Char :=
  stripEnd (l.dropWhile isWsChar)

/-- Model of `str.strip()` on strings (used for the env-derived webhook and
secret in `notify_feishu`). -/
def pyStripS (s : String) : String :=
  String.mk (pyStrip s.toList)

/-- Model of `norm_text` (monitor.py lines 24–25): `(s or "")` maps a missing
value to `""`, then `.strip()`, then `re.sub(r"\s+", " ", ·)`. -/
def norm_text (s : Option String) : String :=
  String.mk (subWsAux false (pyStrip (s.getD "").toList))

/-- Convenience wrapper: `norm_text` applied to a present string. -/
def normStr (s : String) : String := norm_text (some s)

/-- Model of Python `x or default` on a string-valued optional: `None` and
`""` are falsy and give the default. Used for `title or "未识别标题"` and
`date_str or ""` (monitor.py line 88). -/
def pyOr (o : Option String) (dflt : String) : String :=
  match o with
  | some s => if s = "" then dflt else s
  | none => dflt

/-! ## Substring containment (Python `in` on strings) -/

/-- Is `n` a prefix of `h` (character lists)? -/
def isPrefixL : List Char → List Char → Bool
  | [], _ => true
  | _ :: _, [] => false
  | a :: as, b :: bs => a = b && isPrefixL as bs

/-- Is `n` a contiguous substring of `h`? Models Python `n in h`. -/
def containsSub (n : List Char) : List Char → Bool
  | [] => n.isEmpty
  | c :: t => isPrefixL n (c :: t) || containsSub n t

/-- Python `needle in hay` on strings. -/
def containsS (needle hay : String) : Bool :=
  containsSub needle.toList hay.toList

/-! ## Date pattern: `re.search(r"(\d{4}-\d{2}-\d{2})", t)` -/

/-- Try to match `\d{4}-\d{2}-\d{2}` at the start of the list; on success
return the ten matched characters. -/
def dateAt : List Char → Option String
  | a :: b :: c :: d :: e :: f :: g :: h :: i :: j :: _ =>
    if a.isDigit && b.isDigit && c.isDigit && d.isDigit && e = '-' &&
       f.isDigit && g.isDigit && h = '-' && i.isDigit && j.isDigit then
      some (String.mk [a, b, c, d, e, f, g, h, i, j])
    else none
  | _ => none

/-- Model of `re.search(r"(\d{4}-\d{2}-\d{2})", ·)`: the leftmost match, if
any. -/
def findDateL : List Char → Option String
  | [] => none
  | c :: t =>
    match dateAt (c :: t) with
    | some s => some s
    | none => findDateL t

/-- Leftmost date in a string, as `m.group(1)` of the Python search. -/
def findDateS (s : String) : Option String := findDateL s.toList

/-! ## The parsed HTML document

A BeautifulSoup tree is modelled as a mutual inductive: an element node has a
tag name, an attribute list and children; a text node holds a string.  The
root `Node` plays the role of the `soup` object (BeautifulSoup's
`[document]`). -/

mutual
inductive Node where
  | elem (tag : String) (attrs : List (String × String)) (children : NodeList)
  | text (s : String)
deriving DecidableEq
inductive NodeList where
  | nil
  | cons (hd : Node) (tl : NodeList)
deriving DecidableEq
end

/-- Build a `NodeList` from a `List Node` (used only to write documents). -/
def nodesOf : List Node → NodeList
  | [] => .nil
  | n :: t => .cons n (nodesOf t)

/-- Tag name of a node (`Tag.name`); text nodes have no name. -/
def tagOf : Node → String
  | .elem t _ _ => t
  | .text _ => ""

/-- Model of `tag.get(key)`: first attribute with the given name. -/
def getAttr : Node → String → Option String
  | .elem _ attrs _, key => (attrs.find? (fun p => p.1 == key)).map (fun p => p.2)
  | .text _, _ => none

mutual
/-- Strings of all text descendants of a node, in document order (the pieces
joined by `get_text`). -/
def textsN : Node → List String
  | .text s => [s]
  | .elem _ _ cs => textsL cs
def textsL : NodeList → List String
  | .nil => []
  | .cons n tl => textsN n ++ textsL tl
end

/-- Model of `tag.get_text(sep)`: join all descendant text with `sep`.
`get_text()` is `getText n ""`. -/
def getText (n : Node) (sep : String) : String :=
  String.intercalate sep (textsN n)

mutual
/-- All element nodes of a subtree rooted at a node, itself included, in
document (pre-)order. -/
def elemsN : Node → List Node
  | .text _ => []
  | .elem t a cs => Node.elem t a cs :: elemsL cs
def elemsL : NodeList → List Node
  | .nil => []
  | .cons n tl => elemsN n ++ elemsL tl
end

/-- All element descendants of `n` (excluding `n` itself), in document order:
the search space of `n.find_all(...)`. -/
def descElems (n : Node) : List Node :=
  match n with
  | .elem _ _ cs => elemsL cs
  | .text _ => []

/-- Model of `n.find_all([tags...])`: element descendants whose tag is one of
the given names, in document order. -/
def find_all (n : Node) (tags : List String) : List Node :=
  (descElems n).filter (fun e => tags.contains (tagOf e))

mutual
/-- Element descendants of the nodes of a `NodeList` paired with their
ancestor chain (nearest ancestor first); `anc` is the chain above the list. -/
def ctxN (anc : List Node) : Node → List (Node × List Node)
  | .text _ => []
  | .elem t a cs =>
    (Node.elem t a cs, anc) :: ctxC (Node.elem t a cs :: anc) cs
def ctxC (anc : List Node) : NodeList → List (Node × List Node)
  | .nil => []
  | .cons n tl => ctxN anc n ++ ctxC anc tl
end

/-- All element descendants of the document root paired with their ancestor
chains (nearest first, ending with the root, which models the soup object). -/
def descCtx (doc : Node) : List (Node × List Node) :=
  match doc with
  | .elem t a cs => ctxC [Node.elem t a cs] cs
  | .text _ => []

/-! ## Module constants (monitor.py lines 8–9) -/

/-- The `BASE_URL` constant (monitor.py line 8). -/
def BASE_URL : String := "https://www.hanscnc.com/investorsreport/list.html"

/-- The `SOURCE_NAME` constant (monitor.py line 9). -/
def SOURCE_NAME : String := "大族数控-定期报告"

/-! ## The extraction engine: `extract_items` (monitor.py lines 40–97) -/

/-- A `ReportItem`: the dicts `{"title": ..., "date": ..., "href": ...}`
built by `extract_items`. -/
structure Item where
  title : String
  date : String
  href : String
deriving Repr, DecidableEq

/-- Model of `near_text(node)` (monitor.py lines 40–46): the normalized
`get_text(" ")` of `[node, node.parent] + list(node.parents)[:2]`, joined
with single spaces.  `anc` is the node's ancestor chain, nearest first, so
`node.parent` is `anc[0]` and `list(node.parents)[:2]` is `anc.take 2`; the
parent therefore occurs twice, exactly as in the Python list. -/
def near_text (node : Node) (anc : List Node) : String :=
  String.intercalate " "
    (((node :: anc.take 1) ++ anc.take 2).map (fun p => normStr (getText p " ")))

/-- Title marker test of monitor.py line 64: the normalized text contains
one of the four report markers. -/
def titleMarker (t : String) : Bool :=
  containsS "报告" t || containsS "季度" t || containsS "半年度" t || containsS "年度" t

/-- Inner candidate scan (monitor.py lines 62–71): walk the bounded
candidate elements, fill `title` on the first marker text and `date` on the
first date-pattern match, stopping once both are found. -/
def scanCands : List Node → Option String × Option String → Option String × Option String
  | [], td => td
  | n :: rest, (title, date) =>
    let t := normStr (getText n "")
    let title' := if title.isNone && titleMarker t then some t else title
    let date' :=
      if date.isNone then
        match findDateS t with
        | some d => some d
        | none => date
      else date
    if title'.isSome && date'.isSome then (title', date')
    else scanCands rest (title', date')

/-- Outer neighborhood scan (monitor.py lines 58–73): for each of the anchor
itself, its parent and grandparent, inspect at most 8 descendant
`h3/h4/a/p/span` elements, stopping once both title and date are found. -/
def scanUps : List Node → Option String × Option String → Option String × Option String
  | [], td => td
  | up :: rest, td =>
    let td' := scanCands ((find_all up ["h3", "h4", "a", "p", "span"]).take 8) td
    if td'.1.isSome && td'.2.isSome then td' else scanUps rest td'

/-- Document-wide title fallback (monitor.py lines 79–84): the first
`h3`/`h4` heading of the whole document whose normalized text contains
"报告". -/
def titleFallback (doc : Node) : Option String :=
  ((find_all doc ["h3", "h4"]).map (fun h => normStr (getText h ""))).find?
    (fun t => containsS "报告" t)

/-- Main anchor loop of `extract_items` (monitor.py lines 52–88) over the
marker anchors with their ancestor chains.  `uj` models
`urllib.parse.urljoin`; `seen` is the Python `seen` set of already accepted
resolved hrefs. -/
def primLoop (uj : String → String → String) (doc : Node) (base_url : String) :
    List (Node × List Node) → List String → List Item
  | [], _ => []
  | (a, anc) :: rest, seen =>
    let href0 := (getAttr a "href").getD ""
    if href0 = "" then primLoop uj doc base_url rest seen
    else
      let href := uj base_url href0
      let td := scanUps (a :: anc.take 2) (none, none)
      let date :=
        match td.2 with
        | some d => some d
        | none => findDateS (near_text a anc)
      let title :=
        match td.1 with
        | some t => some t
        | none => titleFallback doc
      if href ∈ seen then primLoop uj doc base_url rest seen
      else
        { title := pyOr title "未识别标题", date := pyOr date "", href := href } ::
          primLoop uj doc base_url rest (href :: seen)

/-- Document-wide fallback loop (monitor.py lines 89–96): when the anchor
pass produced nothing, scan every `h3`/`h4`/`a` element whose text contains
"报告" and derive an item from it.  Note: this loop performs no href
de-duplication. -/
def fbLoop (uj : String → String → String) (base_url : String) : List Node → List Item
  | [] => []
  | h :: rest =>
    let t := normStr (getText h "")
    if containsS "报告" t then
      let a := if tagOf h = "a" then some h else (find_all h ["a"]).head?
      let href :=
        match a with
        | some an =>
          match getAttr an "href" with
          | some s => if s = "" then base_url else uj base_url s
          | none => base_url
        | none => base_url
      { title := t,
        date := (match findDateS t with | some d => d | none => ""),
        href := href } :: fbLoop uj base_url rest
    else fbLoop uj base_url rest

/-- Marker anchors (monitor.py line 51): every `a` descendant of the
document whose normalized text contains "下载", with its ancestor chain. -/
def markerAnchors (doc : Node) : List (Node × List Node) :=
  (descCtx doc).filter
    (fun p => tagOf p.1 == "a" && containsS "下载" (normStr (getText p.1 "")))

/-- Result of the primary anchor pass of `extract_items`. -/
def primItems (uj : String → String → String) (doc : Node) (base_url : String) : List Item :=
  primLoop uj doc base_url (markerAnchors doc) []

/-- Model of `extract_items(html, base_url, top_n)` (monitor.py lines
48–97), as a function of the parsed document. -/
def extract_items (uj : String → String → String) (doc : Node) (base_url : String)
    (top_n : Nat) : List Item :=
  let items := primItems uj doc base_url
  let items :=
    if items = [] then fbLoop uj base_url (find_all doc ["h3", "h4", "a"]) else items
  items.take top_n

/-! ## SHA-256, HMAC and base64 (models of `hashlib` / `hmac` / `base64`)

Bytes are `Nat`s below 256; 32-bit words are `Nat`s reduced modulo `2^32`.
SHA-256 follows FIPS 180-4; HMAC follows RFC 2104 with block size 64;
base64 is the standard alphabet with `=` padding, as in
`base64.b64encode`. -/

/-- The word modulus `2^32`. -/
def M32 : Nat := 4294967296

/-- Right rotation of a 32-bit word (input assumed `< 2^32`). -/
def rotr (x n : Nat) : Nat := x / 2 ^ n + x % 2 ^ n * 2 ^ (32 - n)

/-- Bitwise complement within 32 bits (input assumed `< 2^32`). -/
def not32 (x : Nat) : Nat := 4294967295 - x

/-- The SHA-256 round constants (FIPS 180-4 §4.2.2). -/
def shaK : List Nat :=
  [1116352408, 1899447441, 3049323471, 3921009573, 961987163,
   1508970993, 2453635748, 2870763221, 3624381080, 310598401,
   607225278, 1426881987, 1925078388, 2162078206, 2614888103,
   3248222580, 3835390401, 4022224774, 264347078, 604807628,
   770255983, 1249150122, 1555081692, 1996064986, 2554220882,
   2821834349, 2952996808, 3210313671, 3336571891, 3584528711,
   113926993, 338241895, 666307205, 773529912, 1294757372,
   1396182291, 1695183700, 1986661051, 2177026350, 2456956037,
   2730485921, 2820302411, 3259730800, 3345764771, 3516065817,
   3600352804, 4094571909, 275423344, 430227734, 506948616,
   659060556, 883997877, 958139571, 1322822218, 1537002063,
   1747873779, 1955562222, 2024104815, 2227730452, 2361852424,
   2428436474, 2756734187, 3204031479, 3329325298]

/-- A SHA-256 hash state: eight 32-bit words. -/
structure Hash8 where
  a : Nat
  b : Nat
  c : Nat
  d : Nat
  e : Nat
  f : Nat
  g : Nat
  h : Nat

/-- The SHA-256 initial hash value (FIPS 180-4 §5.3.3). -/
def shaH0 : Hash8 :=
  { a := 1779033703, b := 3144134277, c := 1013904242, d := 2773480762,
    e := 1359893119, f := 2600822924, g := 528734635, h := 1541459225 }

/-- Message-schedule small sigma 0. -/
def ssig0 (x : Nat) : Nat := Nat.xor (Nat.xor (rotr x 7) (rotr x 18)) (x / 2 ^ 3)

/-- Message-schedule small sigma 1. -/
def ssig1 (x : Nat) : Nat := Nat.xor (Nat.xor (rotr x 17) (rotr x 19)) (x / 2 ^ 10)

/-- Compression big sigma 0. -/
def bsig0 (x : Nat) : Nat := Nat.xor (Nat.xor (rotr x 2) (rotr x 13)) (rotr x 22)

/-- Compression big sigma 1. -/
def bsig1 (x : Nat) : Nat := Nat.xor (Nat.xor (rotr x 6) (rotr x 11)) (rotr x 25)

/-- The `Ch` function of FIPS 180-4. -/
def shaCh (e f g : Nat) : Nat := Nat.xor (Nat.land e f) (Nat.land (not32 e) g)

/-- The `Maj` function of FIPS 180-4. -/
def shaMaj (a b c : Nat) : Nat :=
  Nat.xor (Nat.xor (Nat.land a b) (Nat.land a c)) (Nat.land b c)

/-- The sixteen initial 32-bit words of a 64-byte block, big-endian. -/
def blockWords (block : List Nat) : List Nat :=
  (List.range 16).map (fun i =>
    block.getD (4 * i) 0 * 16777216 + block.getD (4 * i + 1) 0 * 65536 +
      block.getD (4 * i + 2) 0 * 256 + block.getD (4 * i + 3) 0)

/-- Extend the sixteen block words to the 64-entry message schedule. -/
def schedule (w16 : List Nat) : List Nat :=
  (List.range 48).foldl
    (fun ws _ =>
      ws ++ [(ssig1 (ws.getD (ws.length - 2) 0) + ws.getD (ws.length - 7) 0 +
              ssig0 (ws.getD (ws.length - 15) 0) + ws.getD (ws.length - 16) 0) % M32])
    w16

/-- One round of the SHA-256 compression function. -/
def shaRound (st : Hash8) (ki wi : Nat) : Hash8 :=
  let t1 := (st.h + bsig1 st.e + shaCh st.e st.f st.g + ki + wi) % M32
  let t2 := (bsig0 st.a + shaMaj st.a st.b st.c) % M32
  { a := (t1 + t2) % M32, b := st.a, c := st.b, d := st.c,
    e := (st.d + t1) % M32, f := st.e, g := st.f, h := st.g }

/-- Process one 64-byte block: 64 rounds, then add to the incoming state. -/
def compressBlock (st : Hash8) (block : List Nat) : Hash8 :=
  let w := schedule (blockWords block)
  let r := (List.range 64).foldl (fun s i => shaRound s (shaK.getD i 0) (w.getD i 0)) st
  { a := (st.a + r.a) % M32, b := (st.b + r.b) % M32, c := (st.c + r.c) % M32,
    d := (st.d + r.d) % M32, e := (st.e + r.e) % M32, f := (st.f + r.f) % M32,
    g := (st.g + r.g) % M32, h := (st.h + r.h) % M32 }

/-- SHA-256 padding: append `0x80`, zeros, and the 64-bit big-endian bit
length, reaching a multiple of 64 bytes. -/
def sha256pad (msg : List Nat) : List Nat :=
  let L := msg.length
  let zeros := (120 - (L + 1) % 64) % 64
  let bits := 8 * L
  msg ++ 0x80 :: List.replicate zeros 0 ++
    [bits / 2 ^ 56 % 256, bits / 2 ^ 48 % 256, bits / 2 ^ 40 % 256,
     bits / 2 ^ 32 % 256, bits / 2 ^ 24 % 256, bits / 2 ^ 16 % 256,
     bits / 2 ^ 8 % 256, bits % 256]

/-- Split into 64-byte chunks; the fuel argument (any value at least the
list length) keeps the recursion structural so that it computes in the
kernel. -/
def chunks64 : Nat → List Nat → List (List Nat)
  | 0, _ => []
  | _, [] => []
  | fuel + 1, x :: xs => (x :: xs).take 64 :: chunks64 fuel ((x :: xs).drop 64)

/-- Serialize a hash state to its 32 big-endian digest bytes. -/
def digestBytes (st : Hash8) : List Nat :=
  [st.a / 16777216 % 256, st.a / 65536 % 256, st.a / 256 % 256, st.a % 256,
   st.b / 16777216 % 256, st.b / 65536 % 256, st.b / 256 % 256, st.b % 256,
   st.c / 16777216 % 256, st.c / 65536 % 256, st.c / 256 % 256, st.c % 256,
   st.d / 16777216 % 256, st.d / 65536 % 256, st.d / 256 % 256, st.d % 256,
   st.e / 16777216 % 256, st.e / 65536 % 256, st.e / 256 % 256, st.e % 256,
   st.f / 16777216 % 256, st.f / 65536 % 256, st.f / 256 % 256, st.f % 256,
   st.g / 16777216 % 256, st.g / 65536 % 256, st.g / 256 % 256, st.g % 256,
   st.h / 16777216 % 256, st.h / 65536 % 256, st.h / 256 % 256, st.h % 256]

/-- SHA-256 of a byte string: model of `hashlib.sha256(·).digest()`. -/
def sha256 (msg : List Nat) : List Nat :=
  let padded := sha256pad msg
  digestBytes ((chunks64 padded.length padded).foldl compressBlock shaH0)

/-- HMAC-SHA256 (RFC 2104): model of
`hmac.new(key, msg, digestmod=hashlib.sha256).digest()`. -/
def hmacSha256 (key msg : List Nat) : List Nat :=
  let k0 := if key.length > 64 then sha256 key else key
  let kp := k0 ++ List.replicate (64 - k0.length) 0
  sha256 (kp.map (fun b => Nat.xor b 0x5c) ++
    sha256 (kp.map (fun b => Nat.xor b 0x36) ++ msg))

/-- The 64-character base64 alphabet. -/
def b64Table : List Char :=
  "ABCDEFGHIJKLMNOPQRSTUVWXYZabcdefghijklmnopqrstuvwxyz0123456789+/".toList

/-- The alphabet character for a 6-bit group. -/
def b64Char (n : Nat) : Char :=
  b64Table.get ⟨n % 64, by
    rw [show b64Table.length = 64 from rfl]
    exact Nat.mod_lt _ (by decide)⟩

/-- Standard base64 of a byte string: model of `base64.b64encode`. -/
def b64encode : List Nat → List Char
  | [] => []
  | [b1] => [b64Char (b1 / 4), b64Char (b1 % 4 * 16), '=', '=']
  | [b1, b2] => [b64Char (b1 / 4), b64Char (b1 % 4 * 16 + b2 / 16),
                 b64Char (b2 % 16 * 4), '=']
  | b1 :: b2 :: b3 :: rest =>
    b64Char (b1 / 4) :: b64Char (b1 % 4 * 16 + b2 / 16) ::
      b64Char (b2 % 16 * 4 + b3 / 64) :: b64Char (b3 % 64) :: b64encode rest

/-- UTF-8 encoding of one character (model of Python `str.encode("utf-8")`
per code point). -/
def utf8Char (c : Char) : List Nat :=
  let n := c.toNat
  if n < 128 then [n]
  else if n < 2048 then [192 + n / 64, 128 + n % 64]
  else if n < 65536 then [224 + n / 4096, 128 + n / 64 % 64, 128 + n % 64]
  else [240 + n / 262144, 128 + n / 4096 % 64, 128 + n / 64 % 64, 128 + n % 64]

/-- UTF-8 encoding of a string: model of `s.encode("utf-8")`. -/
def utf8 (s : String) : List Nat :=
  (s.toList.map utf8Char).flatten

/-! ## `feishu_sign` and `notify_feishu` (monitor.py lines 99–118) -/

/-- Model of `feishu_sign(ts, secret)` (monitor.py lines 99–102): base64 of
the HMAC-SHA256 digest keyed by `secret` of the byte string
`f"{ts}\n{secret}"`. -/
def feishu_sign (ts secret : String) : String :=
  String.mk (b64encode (hmacSha256 (utf8 secret) (utf8 (ts ++ "\n" ++ secret))))

/-- The JSON payload assembled by `notify_feishu` (its observable request
body): message type, digest text, and the optional timestamp/signature
pair. -/
structure FeishuPayload where
  msg_type : String
  textContent : String
  timestamp : Option String
  sign : Option String
deriving Repr, DecidableEq

/-- Model of `notify_feishu(items)` (monitor.py lines 104–118) as a function
of the two environment strings and the current Unix-time string `ts`.
Returns `none` when the function returns without posting (blank webhook) and
otherwise the posted target URL with the payload. -/
def notify_feishu (webhookEnv secretEnv : String) (items : List Item) (ts : String) :
    Option (String × FeishuPayload) :=
  let webhook := pyStripS webhookEnv
  if webhook = "" then none
  else
    let secret := pyStripS secretEnv
    let lines := items.map (fun it => "- " ++ it.title ++ "（" ++ it.date ++ "）\n  " ++ it.href)
    let content := SOURCE_NAME ++ " 发现新报告：\n" ++ String.intercalate "\n" lines ++
      "\n来源：" ++ BASE_URL
    let payload : FeishuPayload :=
      { msg_type := "text", textContent := content, timestamp := none, sign := none }
    let payload :=
      if secret = "" then payload
      else { payload with timestamp := some ts, sign := some (feishu_sign ts secret) }
    some (webhook, payload)

/-! ## The orchestrator: `main` (monitor.py lines 120–158)

`main` is modelled as a function of the loaded state (`seen_hrefs`), the
extracted items, the force flag, and the notification outcome (`notifyOk` is
false when `notify_feishu` raises; the exception is caught on lines 140 and
153).  Its effects are reified: the argument of the single `save_state`
call, if any (as a set of hrefs, since line 156 persists `list(set(...))`
in unspecified order), the argument lists of `notify_feishu` calls, and the
printed lines. -/

/-- Observable effects of one `main` run. -/
structure RunEffects where
  savedSeen : Option (Finset String)
  notifyCalls : List (List Item)
  printed : List String
deriving DecidableEq

/-- Model of `main` after fetch and extraction (monitor.py lines 126–158). -/
def runMain (seenHrefs : List String) (items : List Item) (forceNotify : Bool)
    (notifyOk : Bool) : RunEffects :=
  let seen : Finset String := seenHrefs.toFinset
  let newItems : List Item := items.filter (fun it => it.href ∉ seen)
  if seen = ∅ ∧ items ≠ [] ∧ forceNotify = false then
    { savedSeen := some ((items.map Item.href).toFinset)
      notifyCalls := []
      printed := ["Initialized state; no notifications sent."] }
  else if forceNotify then
    let targets := if items ≠ [] then items.take 1 else []
    if targets ≠ [] then
      { savedSeen := none
        notifyCalls := [targets]
        printed := (if notifyOk then [] else ["Feishu notify failed"]) ++
          ["Force-notify sent (state not changed)."] }
    else
      { savedSeen := none
        notifyCalls := []
        printed := ["No items available for force notify."] }
  else if newItems = [] then
    { savedSeen := none, notifyCalls := [], printed := ["No new items."] }
  else
    { savedSeen := some (seen ∪ (newItems.map Item.href).toFinset)
      notifyCalls := [newItems]
      printed := (if notifyOk then [] else ["Feishu notify failed"]) ++
        ["Notified " ++ toString newItems.length ++ " new items."] }

/-! ## Claims about the orchestrator (C2–C5) -/

/-- C2. First-run suppression (monitor.py lines 129–133): with an empty
loaded seen-set, a non-empty extraction and force-notify off, the run
persists exactly the hrefs of all extracted items, performs no notification
call, and returns. -/
theorem run_first_run_suppression (s : List String) (items : List Item) (ok : Bool)
    (h1 : s.toFinset = ∅) (h2 : items ≠ []) :
    (runMain s items false ok).savedSeen = some ((items.map Item.href).toFinset) ∧
    (runMain s items false ok).notifyCalls = [] ∧
    (runMain s items false ok).printed = ["Initialized state; no notifications sent."] := by
  unfold runMain
  rw [if_pos ⟨h1, h2, rfl⟩]
  exact ⟨rfl, rfl, rfl⟩

/-- Witness for C2 at a concrete run. -/
theorem run_first_run_suppression_witness :
    (runMain [] [⟨"t", "d", "h1"⟩] false true).savedSeen =
      some (([(⟨"t", "d", "h1"⟩ : Item)].map Item.href).toFinset) ∧
    (runMain [] [⟨"t", "d", "h1"⟩] false true).notifyCalls = [] ∧
    (runMain [] [⟨"t", "d", "h1"⟩] false true).printed =
      ["Initialized state; no notifications sent."] :=
  run_first_run_suppression [] [⟨"t", "d", "h1"⟩] true (by decide) (by decide)

/-- C3. Force-notify isolation (monitor.py lines 135–145): a forced run
never writes state, and every notification call it makes is with
`items[:1]`, which has at most one element — regardless of loaded state,
extracted items and notification outcome. -/
theorem run_force_notify_isolation (s : List String) (items : List Item) (ok : Bool) :
    (runMain s items true ok).savedSeen = none ∧
    ∀ c ∈ (runMain s items true ok).notifyCalls, c = items.take 1 ∧ c.length ≤ 1 := by
  unfold runMain
  rw [if_neg (by rintro ⟨-, -, h⟩; cases h)]
  by_cases hi : items = []
  · subst hi
    simp
  · obtain ⟨a, t, rfl⟩ := List.exists_cons_of_ne_nil hi
    simp [List.take]

/-- Witness for C3 at a concrete run (failed notification, non-trivial
state). -/
theorem run_force_notify_isolation_witness :
    (runMain ["a"] [⟨"t", "d", "h1"⟩, ⟨"u", "e", "h2"⟩] true false).savedSeen = none ∧
    ([(⟨"t", "d", "h1"⟩ : Item)] = [(⟨"t", "d", "h1"⟩ : Item), ⟨"u", "e", "h2"⟩].take 1 ∧
      [(⟨"t", "d", "h1"⟩ : Item)].length ≤ 1) := by
  have h := run_force_notify_isolation ["a"] [⟨"t", "d", "h1"⟩, ⟨"u", "e", "h2"⟩] false
  exact ⟨h.1, h.2 [⟨"t", "d", "h1"⟩] (by decide)⟩

/-- C4. Steady-state persistence (monitor.py lines 147–158): in a
non-first-run, non-forced run with a non-empty `new_items` partition, the
run calls the notifier on exactly the new items and — for either
notification outcome — persists the union of the loaded seen-set and the
new items' hrefs. -/
theorem run_steady_state_persists (s : List String) (items : List Item) (ok : Bool)
    (hfr : ¬ (s.toFinset = ∅ ∧ items ≠ []))
    (hnew : items.filter (fun it => it.href ∉ s.toFinset) ≠ []) :
    (runMain s items false ok).notifyCalls =
      [items.filter (fun it => it.href ∉ s.toFinset)] ∧
    (runMain s items false ok).savedSeen =
      some (s.toFinset ∪
        ((items.filter (fun it => it.href ∉ s.toFinset)).map Item.href).toFinset) := by
  unfold runMain
  rw [if_neg (by rintro ⟨h1, h2, -⟩; exact hfr ⟨h1, h2⟩)]
  rw [if_neg (by simp)]
  rw [if_neg hnew]
  exact ⟨rfl, rfl⟩

/-- Witness for C4 at a concrete run with a failing notification. -/
theorem run_steady_state_persists_witness :
    (runMain ["a"] [⟨"t", "d", "b"⟩] false false).notifyCalls =
      [[(⟨"t", "d", "b"⟩ : Item)].filter (fun it => it.href ∉ (["a"] : List String).toFinset)] ∧
    (runMain ["a"] [⟨"t", "d", "b"⟩] false false).savedSeen =
      some ((["a"] : List String).toFinset ∪
        (([(⟨"t", "d", "b"⟩ : Item)].filter
          (fun it => it.href ∉ (["a"] : List String).toFinset)).map Item.href).toFinset) :=
  run_steady_state_persists ["a"] [⟨"t", "d", "b"⟩] false (by decide) (by decide)

/-- C5. Monotone growth of the persisted seen-set (monitor.py lines
129–131 and 156–157): whenever a non-forced run writes state, the written
href set contains every href loaded at the start of the run. -/
theorem run_seen_monotonic (s : List String) (items : List Item) (ok : Bool)
    (w : Finset String) (h : (runMain s items false ok).savedSeen = some w) :
    s.toFinset ⊆ w := by
  unfold runMain at h
  by_cases h1 : s.toFinset = ∅ ∧ items ≠ [] ∧ (false : Bool) = false
  · rw [if_pos h1] at h
    simp only [Option.some.injEq] at h
    rw [h1.1]
    exact Finset.empty_subset _
  · rw [if_neg h1] at h
    rw [if_neg (by simp)] at h
    by_cases h2 : items.filter (fun it => it.href ∉ s.toFinset) = []
    · rw [if_pos h2] at h
      exact absurd h (by simp)
    · rw [if_neg h2] at h
      simp only [Option.some.injEq] at h
      rw [← h]
      exact Finset.subset_union_left

/-- Witness for C5 at a concrete run that writes state. -/
theorem run_seen_monotonic_witness :
    (["a"] : List String).toFinset ⊆ ({"a", "b"} : Finset String) :=
  run_seen_monotonic ["a"] [⟨"t", "d", "b"⟩] true {"a", "b"} (by decide)

/-! ## Claim C7: the cap is respected -/

/-- C7. For every document, base URL and cap `n`, `extract_items` returns at
most `n` items (monitor.py line 97 truncates with `items[:top_n]`). -/
theorem extract_items_cap (uj : String → String → String) (doc : Node)
    (base_url : String) (n : Nat) : (extract_items uj doc base_url n).length ≤ n := by
  unfold extract_items
  rw [List.length_take]
  exact min_le_left _ _

/-! ## Claim C10: the notifier's no-op condition -/

/-- C10. `notify_feishu` returns without posting exactly when the stripped
webhook is blank, independently of its `items` input; with a webhook
configured it posts even for an empty items list, and the digest is then the
source-label header followed by the source line (monitor.py lines
104–118). -/
theorem notify_feishu_noop_iff (webhookEnv secretEnv : String) (items : List Item)
    (ts : String) :
    (notify_feishu webhookEnv secretEnv items ts = none ↔ pyStripS webhookEnv = "") ∧
    (pyStripS webhookEnv ≠ "" → items = [] →
      ∃ pl : FeishuPayload,
        notify_feishu webhookEnv secretEnv items ts = some (pyStripS webhookEnv, pl) ∧
        pl.msg_type = "text" ∧
        pl.textContent =
          "大族数控-定期报告 发现新报告：\n\n来源：https://www.hanscnc.com/investorsreport/list.html") := by
  constructor
  · unfold notify_feishu
    by_cases h : pyStripS webhookEnv = "" <;> simp [h]
  · intro hw hi
    subst hi
    unfold notify_feishu
    rw [if_neg hw]
    refine ⟨_, rfl, ?_, ?_⟩
    · by_cases hs : pyStripS secretEnv = "" <;> simp [hs]
    · by_cases hs : pyStripS secretEnv = "" <;> simp only [hs, if_pos, if_neg, ite_true,
        ite_false, Bool.false_eq_true, not_false_eq_true] <;> decide

/-- Witness for C10: a configured webhook and an empty items list. -/
theorem notify_feishu_noop_iff_witness :
    (notify_feishu " W " "" [] "1" = none ↔ pyStripS " W " = "") ∧
    (∃ pl : FeishuPayload,
      notify_feishu " W " "" [] "1" = some (pyStripS " W ", pl) ∧
      pl.msg_type = "text" ∧
      pl.textContent =
        "大族数控-定期报告 发现新报告：\n\n来源：https://www.hanscnc.com/investorsreport/list.html") :=
  ⟨(notify_feishu_noop_iff " W " "" [] "1").1,
   (notify_feishu_noop_iff " W " "" [] "1").2 (by decide) rfl⟩

/-! ## Claim C1: href de-duplication

The primary anchor pass de-duplicates by resolved href with first occurrence
winning (monitor.py lines 85–88).  The document-wide fallback (lines 89–96)
appends items without consulting `seen`, so its output can repeat hrefs; the
claim as stated is therefore refuted by a concrete document below, and the
de-duplication property is proved for the primary pass. -/

/-- The resolved hrefs of the candidate anchors, in order, before
de-duplication: `urljoin(base_url, a.get("href") or "")` for each marker
anchor with a non-empty raw href (monitor.py lines 53–56). -/
def candHrefs (uj : String → String → String) (base_url : String) :
    List (Node × List Node) → List String
  | [] => []
  | (a, _) :: rest =>
    let href0 := (getAttr a "href").getD ""
    if href0 = "" then candHrefs uj base_url rest
    else uj base_url href0 :: candHrefs uj base_url rest

/-- First-occurrence-wins de-duplication with an accumulator of already
seen keys: the reference description of the `seen` set logic of monitor.py
lines 85–87. -/
def dedupFirstAux : List String → List String → List String
  | [], _ => []
  | h :: t, seen =>
    if h ∈ seen then dedupFirstAux t seen else h :: dedupFirstAux t (h :: seen)

/-- The hrefs produced by the primary anchor loop are exactly the
first-occurrence-wins de-duplication of the candidate hrefs. -/
theorem primLoop_map_href (uj : String → String → String) (doc : Node) (base_url : String) :
    ∀ (l : List (Node × List Node)) (seen : List String),
      (primLoop uj doc base_url l seen).map Item.href =
        dedupFirstAux (candHrefs uj base_url l) seen := by
  intro l
  induction l with
  | nil => intro seen; rfl
  | cons p rest ih =>
    intro seen
    obtain ⟨a, anc⟩ := p
    by_cases h0 : (getAttr a "href").getD "" = ""
    · simp only [primLoop, candHrefs, h0, if_pos, ite_true]
      exact ih seen
    · by_cases hs : uj base_url ((getAttr a "href").getD "") ∈ seen
      · simp only [primLoop, candHrefs, h0, hs, if_neg, if_pos, ite_true, ite_false,
          not_false_eq_true, dedupFirstAux]
        exact ih seen
      · simp only [primLoop, candHrefs, h0, hs, ite_false, not_false_eq_true,
          dedupFirstAux, List.map_cons]
        rw [ih (uj base_url ((getAttr a "href").getD "") :: seen)]

/-- The function `dedupFirstAux` produces pairwise-distinct keys, none of which was
already in the accumulator. -/
theorem dedupFirstAux_nodup : ∀ (l seen : List String),
    (dedupFirstAux l seen).Nodup ∧ ∀ x ∈ dedupFirstAux l seen, x ∉ seen := by
  intro l
  induction l with
  | nil =>
    intro seen
    exact ⟨List.nodup_nil, by intro x hx; simp [dedupFirstAux] at hx⟩
  | cons h t ih =>
    intro seen
    by_cases hs : h ∈ seen
    · simp only [dedupFirstAux, if_pos hs]
      exact ih seen
    · simp only [dedupFirstAux, if_neg hs]
      obtain ⟨ihn, ihm⟩ := ih (h :: seen)
      refine ⟨List.Nodup.cons (fun hm => (ihm h hm) (List.mem_cons_self h _)) ihn, ?_⟩
      intro x hx
      rcases List.mem_cons.mp hx with rfl | hx'
      · exact hs
      · intro hxs
        exact (ihm x hx') (List.mem_cons_of_mem _ hxs)

/-- A document with no "下载" anchors and two "报告" headings carrying the
same nested href: the document-wide fallback fires and emits the same
resolved href twice. -/
def fbDupDoc : Node :=
  .elem "html" [] (nodesOf
    [ .elem "h3" [] (nodesOf [.text "年度报告", .elem "a" [("href", "x.pdf")] .nil])
    , .elem "h3" [] (nodesOf [.text "年度报告", .elem "a" [("href", "x.pdf")] .nil]) ])

/-- Counterexample to C1 as stated: in the document-wide fallback the
returned href values are not pairwise distinct — both anchors resolve to the
same absolute href, yet `extract_items` returns two items for it. -/
theorem extract_items_dedup_counterexample :
    (extract_items (fun _ r => r) fbDupDoc "https://base/" 20).map Item.href =
      ["x.pdf", "x.pdf"] ∧
    ¬ ((extract_items (fun _ r => r) fbDupDoc "https://base/" 20).map Item.href).Nodup := by
  decide

/-- C1 (amended). Whenever the result comes from the primary anchor pass
(the pass produced at least one item, so the fallback does not fire), the
returned href values are pairwise distinct, and they are exactly the
first-occurrence-wins de-duplication of the resolved candidate hrefs,
truncated to the cap. -/
theorem extract_items_primary_dedup (uj : String → String → String) (doc : Node)
    (base_url : String) (n : Nat) (h : primItems uj doc base_url ≠ []) :
    ((extract_items uj doc base_url n).map Item.href).Nodup ∧
    (extract_items uj doc base_url n).map Item.href =
      (dedupFirstAux (candHrefs uj base_url (markerAnchors doc)) []).take n := by
  have key : (primItems uj doc base_url).map Item.href =
      dedupFirstAux (candHrefs uj base_url (markerAnchors doc)) [] :=
    primLoop_map_href uj doc base_url (markerAnchors doc) []
  have he : extract_items uj doc base_url n = (primItems uj doc base_url).take n := by
    show ((if primItems uj doc base_url = [] then
        fbLoop uj base_url (find_all doc ["h3", "h4", "a"])
      else primItems uj doc base_url).take n) = _
    rw [if_neg h]
  rw [he, List.map_take, key]
  exact ⟨List.Nodup.sublist (List.take_sublist _ _)
    (dedupFirstAux_nodup (candHrefs uj base_url (markerAnchors doc)) []).1, rfl⟩

/-- A document with two "下载" anchors resolving to the same href: the
primary pass keeps only the first. -/
def dlAnchorsDoc : Node :=
  .elem "html" [] (nodesOf
    [ .elem "a" [("href", "r.pdf")] (nodesOf [.text "下载 第一"])
    , .elem "a" [("href", "r.pdf")] (nodesOf [.text "下载 第二"]) ])

/-- Witness for the amended C1 at a concrete document. -/
theorem extract_items_primary_dedup_witness :
    ((extract_items (fun b r => b ++ r) dlAnchorsDoc "u/" 20).map Item.href).Nodup ∧
    (extract_items (fun b r => b ++ r) dlAnchorsDoc "u/" 20).map Item.href =
      (dedupFirstAux (candHrefs (fun b r => b ++ r) "u/" (markerAnchors dlAnchorsDoc)) []).take 20 :=
  extract_items_primary_dedup (fun b r => b ++ r) dlAnchorsDoc "u/" 20 (by decide)

/-! ## Claim C9: extraction is total and deterministic

In this embedding `extract_items` is a total function of the parsed
document — every partial access of the Python code (`a.get("href")`,
`a.parent`, `h.find("a")`, `m.group(1)`) is guarded in the source and is
modelled by a total `Option`-valued operation — so "never raises" holds by
construction, and determinism is the statement that equal inputs give equal
outputs.  The substantive half of the claim is the worst case: a document
that matches none of the heuristics yields the empty sequence. -/

/-- The fallback loop yields nothing when no scanned element's text contains
the "报告" marker. -/
theorem fbLoop_eq_nil (uj : String → String → String) (base_url : String) :
    ∀ l : List Node,
      (∀ h ∈ l, containsS "报告" (normStr (getText h "")) = false) →
      fbLoop uj base_url l = [] := by
  intro l
  induction l with
  | nil => intro _; rfl
  | cons h t ih =>
    intro hall
    have hh := hall h (List.mem_cons_self h t)
    simp only [fbLoop, hh, Bool.false_eq_true, if_neg, ite_false, not_false_eq_true]
    exact ih (fun x hx => hall x (List.mem_cons_of_mem _ hx))

/-- C9. Extraction is deterministic (a pure function of document, base URL
and cap: repeated runs on identical inputs return identical ordered output)
and total, returning the empty sequence in the worst case: on a document
with no marker anchors and no "报告" headings or anchors it returns `[]`
rather than failing. -/
theorem extract_items_total_deterministic (uj : String → String → String) (doc : Node)
    (base_url : String) (n : Nat) :
    extract_items uj doc base_url n = extract_items uj doc base_url n ∧
    (markerAnchors doc = [] →
      (∀ h ∈ find_all doc ["h3", "h4", "a"],
        containsS "报告" (normStr (getText h "")) = false) →
      extract_items uj doc base_url n = []) := by
  refine ⟨rfl, ?_⟩
  intro hma hfb
  have hp : primItems uj doc base_url = [] := by
    unfold primItems
    rw [hma]
    rfl
  show ((if primItems uj doc base_url = [] then
      fbLoop uj base_url (find_all doc ["h3", "h4", "a"])
    else primItems uj doc base_url).take n) = []
  rw [if_pos hp, fbLoop_eq_nil uj base_url _ hfb]
  exact List.take_nil

/-- A document matching none of the extraction heuristics. -/
def plainDoc : Node :=
  .elem "html" [] (nodesOf [.elem "div" [] (nodesOf [.text "hello world"])])

/-- Witness for C9 at a concrete heuristic-free document. -/
theorem extract_items_total_deterministic_witness :
    extract_items (fun b r => b ++ r) plainDoc "u/" 20 = [] :=
  ((extract_items_total_deterministic (fun b r => b ++ r) plainDoc "u/" 20).2
    (by decide) (by decide))

/-! ## Claim C8: `norm_text` normalizes whitespace

The specification formulation — replace every maximal whitespace run by one
space and trim the ends — is captured by the reference definition
`normSpec`: split the input into its maximal non-whitespace words and join
them with single spaces.  The claim is settled by proving `norm_text`
extensionally equal to `normSpec`. -/

/-- Reference definition, following the specification's words: the maximal
non-whitespace runs (words) of a character list, in order. -/
def wordsWs : List Char → List (List Char)
  | [] => []
  | c :: t =>
    if isWsChar c then wordsWs t
    else (c :: t.takeWhile (fun x => !isWsChar x)) :: wordsWs (t.dropWhile (fun x => !isWsChar x))
termination_by l => l.length
decreasing_by
  · simp only [List.length_cons]
    omega
  · simp only [List.length_cons]
    have := (List.dropWhile_sublist (l := t) (fun x => !isWsChar x)).length_le
    omega

/-- Join words with single spaces. -/
def joinSp : List (List Char) → List Char
  | [] => []
  | [w] => w
  | w :: ws => w ++ ' ' :: joinSp ws

/-- Reference normalization, following the specification's words: the words
of the input joined by single spaces (which both collapses interior runs to
one space and trims the ends). -/
def normSpec (s : String) : String :=
  String.mk (joinSp (wordsWs s.toList))

/-- Unfolding `stripEnd` over a cons cell. -/
theorem stripEnd_cons (c : Char) (t : List Char) :
    stripEnd (c :: t) =
      if stripEnd t = [] then (if isWsChar c then [] else [c]) else c :: stripEnd t := by
  unfold stripEnd
  rw [show (c :: t).reverse = t.reverse ++ [c] from by simp]
  rw [List.dropWhile_append]
  by_cases h : t.reverse.dropWhile isWsChar = []
  · rw [if_pos (by simp [h]), if_pos (by simp [h])]
    by_cases hc : isWsChar c
    · rw [if_pos hc, List.dropWhile_cons_of_pos hc]
      rfl
    · rw [if_neg hc, List.dropWhile_cons_of_neg hc]
      rfl
  · rw [if_neg (by simp [h]), if_neg (by simp [h])]
    simp

/-- Unfolding `stripEnd` over an append. -/
theorem stripEnd_append (xs ys : List Char) :
    stripEnd (xs ++ ys) = if stripEnd ys = [] then stripEnd xs else xs ++ stripEnd ys := by
  unfold stripEnd
  rw [List.reverse_append, List.dropWhile_append]
  by_cases h : ys.reverse.dropWhile isWsChar = []
  · rw [if_pos (by simp [h]), if_pos (by simp [h])]
  · rw [if_neg (by simp [h]), if_neg (by simp [h])]
    simp

/-- The function `stripEnd` returns `[]` exactly on all-whitespace input. -/
theorem stripEnd_eq_nil_iff (l : List Char) :
    stripEnd l = [] ↔ ∀ c ∈ l, isWsChar c := by
  unfold stripEnd
  rw [List.reverse_eq_nil_iff, List.dropWhile_eq_nil_iff]
  constructor
  · intro h c hc
    exact h c (List.mem_reverse.mpr hc)
  · intro h c hc
    exact h c (List.mem_reverse.mp hc)

/-- The function `wordsWs` returns `[]` exactly on all-whitespace input. -/
theorem wordsWs_eq_nil_iff (l : List Char) :
    wordsWs l = [] ↔ ∀ c ∈ l, isWsChar c := by
  induction l using wordsWs.induct with
  | case1 => simp [wordsWs]
  | case2 c t hc ih =>
    rw [wordsWs, if_pos hc]
    simp only [List.mem_cons]
    constructor
    · intro h x hx
      rcases hx with rfl | hx
      · exact hc
      · exact ih.mp h x hx
    · intro h
      exact ih.mpr (fun x hx => h x (Or.inr hx))
  | case3 c t hc =>
    rw [wordsWs, if_neg hc]
    simp only [List.cons_ne_nil, false_iff, not_forall]
    exact ⟨c, List.mem_cons_self c t, hc⟩

/-- The function `dropWhile` is the identity when no element satisfies the predicate. -/
theorem dropWhile_eq_self_of (p : Char → Bool) (l : List Char)
    (h : ∀ c ∈ l, p c = false) : l.dropWhile p = l := by
  cases l with
  | nil => rfl
  | cons c t =>
    rw [List.dropWhile_cons_of_neg]
    rw [h c (List.mem_cons_self c t)]
    exact Bool.false_ne_true

/-- The function `stripEnd` is the identity on all-non-whitespace input. -/
theorem stripEnd_all_nonws (w : List Char) (hw : ∀ c ∈ w, isWsChar c = false) :
    stripEnd w = w := by
  unfold stripEnd
  rw [dropWhile_eq_self_of isWsChar w.reverse (fun c hc => hw c (List.mem_reverse.mp hc)),
    List.reverse_reverse]

/-- The head produced by `dropWhile` falsifies the predicate. -/
theorem dropWhile_head_not (p : Char → Bool) :
    ∀ (l : List Char) x xs, l.dropWhile p = x :: xs → p x = false := by
  intro l
  induction l with
  | nil => intro x xs h; cases h
  | cons c t ih =>
    intro x xs h
    by_cases hc : p c
    · rw [List.dropWhile_cons_of_pos hc] at h
      exact ih x xs h
    · rw [List.dropWhile_cons_of_neg hc] at h
      cases h
      simpa using hc

/-- Copying a non-whitespace prefix through the substitution. -/
theorem subWsAux_false_append (w rest : List Char) (hw : ∀ c ∈ w, isWsChar c = false) :
    subWsAux false (w ++ rest) = w ++ subWsAux false rest := by
  induction w with
  | nil => rfl
  | cons c t ih =>
    have hc := hw c (List.mem_cons_self c t)
    rw [List.cons_append, subWsAux, if_neg (by rw [hc]; exact Bool.false_ne_true)]
    rw [ih (fun x hx => hw x (List.mem_cons_of_mem _ hx))]
    rfl

/-- In already-inside-a-run state, the substitution swallows leading
whitespace. -/
theorem subWsAux_true_dropWhile (l : List Char) :
    subWsAux true l = subWsAux false (l.dropWhile isWsChar) := by
  induction l with
  | nil => rfl
  | cons c t ih =>
    by_cases hc : isWsChar c
    · rw [List.dropWhile_cons_of_pos hc, subWsAux, if_pos hc]
      exact ih
    · rw [List.dropWhile_cons_of_neg hc, subWsAux, subWsAux, if_neg hc, if_neg hc]

/-- Front-strip and end-strip commute. -/
theorem dropWhile_stripEnd_comm (l : List Char) :
    (stripEnd l).dropWhile isWsChar = stripEnd (l.dropWhile isWsChar) := by
  induction l with
  | nil => rfl
  | cons c t ih =>
    by_cases hc : isWsChar c
    · by_cases ht : stripEnd t = []
      · rw [List.dropWhile_cons_of_pos hc, ← ih, stripEnd_cons, if_pos ht, if_pos hc, ht]
      · rw [List.dropWhile_cons_of_pos hc, ← ih, stripEnd_cons, if_neg ht,
          List.dropWhile_cons_of_pos hc]
    · rw [List.dropWhile_cons_of_neg hc, stripEnd_cons]
      by_cases ht : stripEnd t = []
      · rw [if_pos ht, if_neg hc, List.dropWhile_cons_of_neg hc]
      · rw [if_neg ht, List.dropWhile_cons_of_neg hc]

/-- Appending one more word when the remaining word list is non-empty. -/
theorem joinSp_cons_ne (w : List Char) (ws : List (List Char)) (h : ws ≠ []) :
    joinSp (w :: ws) = w ++ ' ' :: joinSp ws := by
  cases ws with
  | nil => exact absurd rfl h
  | cons a t => rfl

/-- Master lemma: from inside-a-run state, substituting over the
end-stripped input produces exactly the words joined by single spaces. -/
theorem subWsAux_stripEnd_eq (l : List Char) :
    subWsAux true (stripEnd l) = joinSp (wordsWs l) := by
  induction l using wordsWs.induct with
  | case1 =>
    rw [wordsWs]
    rfl
  | case2 c t hc ih =>
    rw [wordsWs, if_pos hc, stripEnd_cons]
    by_cases ht : stripEnd t = []
    · rw [if_pos ht, if_pos hc, (wordsWs_eq_nil_iff t).mpr ((stripEnd_eq_nil_iff t).mp ht)]
      rfl
    · rw [if_neg ht, subWsAux, if_pos hc]
      exact ih
  | case3 c t hc ih =>
    rw [wordsWs, if_neg hc]
    set w := t.takeWhile (fun x => !isWsChar x) with hw
    set r := t.dropWhile (fun x => !isWsChar x) with hr
    have hwnw : ∀ x ∈ w, isWsChar x = false := by
      intro x hx
      have := List.mem_takeWhile_imp hx
      simpa using this
    have htw : t = w ++ r := (List.takeWhile_append_dropWhile _ t).symm
    rw [stripEnd_cons]
    by_cases ht : stripEnd t = []
    · rw [if_pos ht, if_neg hc]
      have hall : ∀ x ∈ t, isWsChar x := (stripEnd_eq_nil_iff t).mp ht
      have hw0 : w = [] := by
        rw [hw]
        cases t with
        | nil => rfl
        | cons a s =>
          rw [List.takeWhile_cons_of_neg]
          simp [hall a (List.mem_cons_self a s)]
      have hr0 : wordsWs r = [] := by
        apply (wordsWs_eq_nil_iff r).mpr
        intro x hx
        exact hall x ((List.dropWhile_sublist _).subset hx)
      rw [hw0, hr0, subWsAux, if_neg hc]
      rfl
    · rw [if_neg ht, subWsAux, if_neg hc]
      by_cases hsr : stripEnd r = []
      · have hst : stripEnd t = w := by
          conv_lhs => rw [htw]
          rw [stripEnd_append, if_pos hsr, stripEnd_all_nonws w hwnw]
        have hr0 : wordsWs r = [] :=
          (wordsWs_eq_nil_iff r).mpr ((stripEnd_eq_nil_iff r).mp hsr)
        have hsw : subWsAux false w = w := by
          have := subWsAux_false_append w [] hwnw
          simpa [subWsAux] using this
        rw [hst, hr0, hsw]
        rfl
      · have hst : stripEnd t = w ++ stripEnd r := by
          conv_lhs => rw [htw]
          rw [stripEnd_append, if_neg hsr]
        rw [hst, subWsAux_false_append w _ hwnw]
        have hrne : r ≠ [] := by
          intro h0
          rw [h0] at hsr
          exact hsr rfl
        obtain ⟨x, r', hxr⟩ := List.exists_cons_of_ne_nil hrne
        have hx : isWsChar x := by
          have := dropWhile_head_not (fun y => !isWsChar y) t x r' (by rw [← hr, hxr])
          simpa using this
        have h1 : ¬ stripEnd r' = [] := by
          intro h2
          rw [hxr, stripEnd_cons, if_pos h2, if_pos hx] at hsr
          exact hsr rfl
        have h2 : stripEnd r = x :: stripEnd r' := by
          rw [hxr, stripEnd_cons, if_neg h1]
        have h3 : subWsAux false (x :: stripEnd r') = ' ' :: subWsAux true (stripEnd r') := by
          rw [subWsAux, if_pos hx, if_neg (by exact Bool.false_ne_true)]
        have h4 : subWsAux true (stripEnd r') = subWsAux true (stripEnd r) := by
          conv_rhs => rw [h2]
          rw [subWsAux, if_pos hx, if_pos rfl]
        have h5 : wordsWs r ≠ [] := by
          intro h6
          exact hsr ((stripEnd_eq_nil_iff r).mpr ((wordsWs_eq_nil_iff r).mp h6))
        rw [h2, h3, h4, ih, joinSp_cons_ne _ _ h5]
        simp

/-- C8. `norm_text` maps a missing input to `""` and any present string to
its whitespace-normal form: every maximal run of whitespace (space, tab,
newline) replaced by a single space and the ends trimmed — stated as
extensional equality with the reference normalization `normSpec`.  Being a
Lean function, `norm_text` is pure and total by construction. -/
theorem norm_text_spec :
    norm_text none = "" ∧ ∀ s : String, norm_text (some s) = normSpec s := by
  constructor
  · decide
  · intro s
    unfold norm_text normSpec
    congr 1
    rw [← subWsAux_stripEnd_eq s.toList, subWsAux_true_dropWhile (stripEnd s.toList),
      dropWhile_stripEnd_comm]
    rfl

/-! ## Claim C6: the Feishu signature

The signature formula and determinism are proved, together with validity of
the base64 output and the attachment of the timestamp/signature pair to the
envelope.  The remaining conjunct of the claim — changing either input
always changes the output — is refuted: the signature is 44 characters of
base64 for a 32-byte digest, so by counting it cannot be injective in the
timestamp. -/

/-- Little-endian base-256 value of a byte string (used only to count
digests). -/
def bytesToNat : List Nat → Nat
  | [] => 0
  | b :: t => b + 256 * bytesToNat t

/-- Every digest byte is below 256. -/
theorem digestBytes_lt (st : Hash8) : ∀ b ∈ digestBytes st, b < 256 := by
  intro b hb
  unfold digestBytes at hb
  simp only [List.mem_cons, List.not_mem_nil, or_false] at hb
  rcases hb with rfl | rfl | rfl | rfl | rfl | rfl | rfl | rfl | rfl | rfl | rfl | rfl |
    rfl | rfl | rfl | rfl | rfl | rfl | rfl | rfl | rfl | rfl | rfl | rfl | rfl | rfl |
    rfl | rfl | rfl | rfl | rfl | rfl <;>
    exact Nat.mod_lt _ (by decide)

/-- A SHA-256 digest has 32 bytes. -/
theorem sha256_length (msg : List Nat) : (sha256 msg).length = 32 := by
  unfold sha256
  rfl

/-- Every byte of a SHA-256 digest is below 256. -/
theorem sha256_lt (msg : List Nat) : ∀ b ∈ sha256 msg, b < 256 := by
  unfold sha256
  exact digestBytes_lt _

/-- An HMAC-SHA256 digest has 32 bytes. -/
theorem hmacSha256_length (key msg : List Nat) : (hmacSha256 key msg).length = 32 := by
  unfold hmacSha256
  exact sha256_length _

/-- Every byte of an HMAC-SHA256 digest is below 256. -/
theorem hmacSha256_lt (key msg : List Nat) : ∀ b ∈ hmacSha256 key msg, b < 256 := by
  unfold hmacSha256
  exact sha256_lt _

/-- Byte strings of bounded bytes have bounded value. -/
theorem bytesToNat_lt : ∀ l : List Nat, (∀ b ∈ l, b < 256) → bytesToNat l < 256 ^ l.length := by
  intro l
  induction l with
  | nil =>
    intro _
    simp [bytesToNat]
  | cons b t ih =>
    intro h
    have hb := h b (List.mem_cons_self b t)
    have ht := ih (fun x hx => h x (List.mem_cons_of_mem _ hx))
    show b + 256 * bytesToNat t < 256 ^ (t.length + 1)
    rw [pow_succ]
    omega

/-- The map `bytesToNat` is injective on equal-length byte strings with bytes below
256. -/
theorem bytesToNat_inj : ∀ l1 l2 : List Nat, l1.length = l2.length →
    (∀ b ∈ l1, b < 256) → (∀ b ∈ l2, b < 256) →
    bytesToNat l1 = bytesToNat l2 → l1 = l2 := by
  intro l1
  induction l1 with
  | nil =>
    intro l2 hl _ _ _
    exact (List.length_eq_zero.mp hl.symm).symm
  | cons b t ih =>
    intro l2 hl h1 h2 he
    cases l2 with
    | nil => simp at hl
    | cons c u =>
      have hb := h1 b (List.mem_cons_self b t)
      have hcu := h2 c (List.mem_cons_self c u)
      unfold bytesToNat at he
      have hbc : b = c := by omega
      have htu : bytesToNat t = bytesToNat u := by omega
      rw [hbc, ih u (by simpa using hl) (fun x hx => h1 x (List.mem_cons_of_mem _ hx))
        (fun x hx => h2 x (List.mem_cons_of_mem _ hx)) htu]

/-- Base64 alphabet membership of the encoder's output symbols. -/
theorem b64Char_mem (n : Nat) : b64Char n ∈ b64Table := List.get_mem _ _ _

/-- The base64 encoding has length divisible by four. -/
theorem b64encode_length_mod4 : ∀ l : List Nat, (b64encode l).length % 4 = 0 := by
  intro l
  induction l using b64encode.induct with
  | case1 => rfl
  | case2 b1 =>
    rw [b64encode]
    simp
  | case3 b1 b2 =>
    rw [b64encode]
    simp
  | case4 b1 b2 b3 rest ih =>
    rw [b64encode]
    simp only [List.length_cons]
    omega

/-- Every character of a base64 encoding is an alphabet symbol or the
padding character. -/
theorem b64encode_chars : ∀ l : List Nat, ∀ c ∈ b64encode l, c ∈ b64Table ∨ c = '=' := by
  intro l
  induction l using b64encode.induct with
  | case1 =>
    intro c hc
    cases hc
  | case2 b1 =>
    intro c hc
    rw [b64encode] at hc
    simp only [List.mem_cons, List.not_mem_nil, or_false] at hc
    rcases hc with rfl | rfl | rfl | rfl
    · exact Or.inl (b64Char_mem _)
    · exact Or.inl (b64Char_mem _)
    · exact Or.inr rfl
    · exact Or.inr rfl
  | case3 b1 b2 =>
    intro c hc
    rw [b64encode] at hc
    simp only [List.mem_cons, List.not_mem_nil, or_false] at hc
    rcases hc with rfl | rfl | rfl | rfl
    · exact Or.inl (b64Char_mem _)
    · exact Or.inl (b64Char_mem _)
    · exact Or.inl (b64Char_mem _)
    · exact Or.inr rfl
  | case4 b1 b2 b3 rest ih =>
    intro c hc
    rw [b64encode] at hc
    simp only [List.mem_cons] at hc
    rcases hc with rfl | rfl | rfl | rfl | h
    · exact Or.inl (b64Char_mem _)
    · exact Or.inl (b64Char_mem _)
    · exact Or.inl (b64Char_mem _)
    · exact Or.inl (b64Char_mem _)
    · exact ih c h

/-- Valid base64: length divisible by four and only alphabet or padding
characters. -/
def validB64 (s : String) : Prop :=
  s.toList.length % 4 = 0 ∧ ∀ c ∈ s.toList, c ∈ b64Table ∨ c = '='

/-- Every Feishu signature is valid base64. -/
theorem feishu_sign_validB64 (ts secret : String) : validB64 (feishu_sign ts secret) :=
  ⟨b64encode_length_mod4 _, b64encode_chars _⟩

/-- C6 (amended). The signature is the base64 encoding of the HMAC-SHA256
digest keyed by the secret over the byte string `"{ts}\n{secret}"`; it is a
deterministic function of `(ts, secret)`; its output is valid base64; and
when a secret is configured, `notify_feishu` attaches the timestamp and
exactly this signature to the envelope (monitor.py lines 99–102 and
112–116).  Distinctness of outputs for distinct inputs cannot hold in
general (see the collision counterexample) and is not asserted. -/
theorem feishu_sign_spec (ts1 ts2 secret1 secret2 webhookEnv secretEnv ts : String)
    (items : List Item) :
    (ts1 = ts2 → secret1 = secret2 → feishu_sign ts1 secret1 = feishu_sign ts2 secret2) ∧
    feishu_sign ts1 secret1 =
      String.mk (b64encode (hmacSha256 (utf8 secret1) (utf8 (ts1 ++ "\n" ++ secret1)))) ∧
    validB64 (feishu_sign ts1 secret1) ∧
    (pyStripS webhookEnv ≠ "" → pyStripS secretEnv ≠ "" →
      ∃ pl : FeishuPayload,
        notify_feishu webhookEnv secretEnv items ts = some (pyStripS webhookEnv, pl) ∧
        pl.timestamp = some ts ∧
        pl.sign = some (feishu_sign ts (pyStripS secretEnv))) := by
  refine ⟨fun h1 h2 => by rw [h1, h2], rfl, feishu_sign_validB64 ts1 secret1, ?_⟩
  intro hw hs
  unfold notify_feishu
  rw [if_neg hw]
  refine ⟨_, rfl, ?_, ?_⟩
  · rw [if_neg hs]
  · rw [if_neg hs]

/-- Witness for the amended C6 at concrete inputs. -/
theorem feishu_sign_spec_witness :
    validB64 (feishu_sign "1" "k") ∧
    (∃ pl : FeishuPayload,
      notify_feishu "W" "k" [] "1" = some (pyStripS "W", pl) ∧
      pl.timestamp = some "1" ∧ pl.sign = some (feishu_sign "1" (pyStripS "k"))) := by
  have h := feishu_sign_spec "1" "1" "k" "k" "W" "k" "1" []
  exact ⟨h.2.2.1, h.2.2.2 (by decide) (by decide)⟩

/-- The signed byte string for the timestamp `'a' * n` and the secret
`"s"` (used only by the collision counterexample). -/
def sigMsg (n : Nat) : List Nat := utf8 (String.mk (List.replicate n 'a') ++ "\n" ++ "s")

/-- Digest values are bounded by `256 ^ 32`. -/
theorem sigMsg_bound (n : Nat) :
    bytesToNat (hmacSha256 (utf8 "s") (sigMsg n)) < 256 ^ 32 := by
  have h1 := bytesToNat_lt _ (hmacSha256_lt (utf8 "s") (sigMsg n))
  rwa [hmacSha256_length] at h1

/-- Pigeonhole: infinitely many timestamps map into finitely many digest
values, so two distinct timestamp indices share a digest value. -/
theorem sigMsg_pigeon : ∃ n m : Nat, n ≠ m ∧
    (⟨bytesToNat (hmacSha256 (utf8 "s") (sigMsg n)), sigMsg_bound n⟩ : Fin (256 ^ 32)) =
    ⟨bytesToNat (hmacSha256 (utf8 "s") (sigMsg m)), sigMsg_bound m⟩ :=
  Finite.exists_ne_map_eq_of_infinite _

/-- Equal digest values give equal digests (32 bytes below 256 each). -/
theorem sigMsg_digest_inj (n m : Nat)
    (hv : bytesToNat (hmacSha256 (utf8 "s") (sigMsg n)) =
      bytesToNat (hmacSha256 (utf8 "s") (sigMsg m))) :
    hmacSha256 (utf8 "s") (sigMsg n) = hmacSha256 (utf8 "s") (sigMsg m) :=
  bytesToNat_inj _ _ (by rw [hmacSha256_length, hmacSha256_length])
    (hmacSha256_lt _ _) (hmacSha256_lt _ _) hv

/-- Equal digests give equal signatures. -/
theorem sigMsg_sign_congr (n m : Nat)
    (hd : hmacSha256 (utf8 "s") (sigMsg n) = hmacSha256 (utf8 "s") (sigMsg m)) :
    feishu_sign (String.mk (List.replicate n 'a')) "s" =
      feishu_sign (String.mk (List.replicate m 'a')) "s" :=
  congrArg (fun d => String.mk (b64encode d)) hd

/-- Distinct indices give distinct timestamp strings. -/
theorem sigMsg_ts_ne (n m : Nat) (hnm : n ≠ m) :
    String.mk (List.replicate n 'a') ≠ String.mk (List.replicate m 'a') := by
  intro he
  apply hnm
  have hdata : List.replicate n 'a' = List.replicate m 'a' := by
    injection he
  have := congrArg List.length hdata
  simpa using this

/-- Counterexample to C6 as stated: "changing either input changes the
output" fails — the signature is the base64 encoding of a 32-byte digest,
so by counting it cannot be injective in the timestamp: some two distinct
timestamps with the same secret share a signature. -/
theorem feishu_sign_collision_counterexample :
    ¬ (∀ ts1 ts2 secret : String, ts1 ≠ ts2 →
        feishu_sign ts1 secret ≠ feishu_sign ts2 secret) := by
  intro h
  obtain ⟨n, m, hnm, heq⟩ := sigMsg_pigeon
  have hv := congrArg Fin.val heq
  exact h (String.mk (List.replicate n 'a')) (String.mk (List.replicate m 'a')) "s"
    (sigMsg_ts_ne n m hnm) (sigMsg_sign_congr n m (sigMsg_digest_inj n m hv))
